import Mathlib

/-!
Shallow embedding of the chat persistence layer of `src/database.py`
(peewee / SQLite backed).  The `messages` table is modelled as a list of
rows together with the auto-increment counter; `datetime.now()` is passed
in explicitly as a natural-number timestamp; the possibility of an
underlying storage failure (the `except Exception` branches) is modelled
by an explicit `Option String` error injected into the body of each
operation, which the public operation catches, mirroring the
try/except structure of the Python code.
-/

namespace ChatDB

/-- One row of the `messages` table (`class Messages` in `database.py`).
The bookkeeping columns `created_at` / `updated_at` play no role in any
query of the repository and are omitted. -/
structure Row where
  id : Nat
  question : String
  answer : String
  timestamp : Nat
  chat_id : String
deriving Repr, DecidableEq

/-- The state of the store: the rows of the `messages` table in insertion
order, plus the next value of the `AutoField` primary key. -/
structure Store where
  rows : List Row
  nextId : Nat
deriving Repr, DecidableEq

/-- The freshly initialized database (after `initialize_database`). -/
def emptyStore : Store := { rows := [], nextId := 1 }

/-! ### ORDER BY ... DESC

SQL `ORDER BY key DESC` is modelled by an insertion sort on a numeric
key, descending.  The order of rows whose keys tie is not specified by
SQLite; the sort below fixes one such order, and every theorem about
ordering only uses the (tie-permitting) descending property and the fact
that sorting permutes the list. -/

/-- Insert `x` into a list that is sorted by `key` descending. -/
def insertDesc (key : α → Nat) (x : α) : List α → List α
  | [] => [x]
  | y :: ys => if key y ≤ key x then x :: y :: ys else y :: insertDesc key x ys

/-- Sort a list by `key` descending (insertion sort). -/
def sortDesc (key : α → Nat) : List α → List α
  | [] => []
  | x :: xs => insertDesc key x (sortDesc key xs)

/-! ### The five store operations

Each operation `op` is split into `op_body` (the code inside the `try`
block, which can fail with an error) and `op` itself (which catches any
error and returns the documented failure value).  `storageErr` injects a
failure of the underlying storage medium; a `some e` makes the body fail
before touching the table, as an unavailable database file would. -/

/-- The unique composite index on `(chat_id, timestamp)`
(`Messages.Meta.indexes`): does inserting `(cid, t)` collide? -/
def violatesUnique (rows : List Row) (cid : String) (t : Nat) : Bool :=
  rows.any fun r => r.chat_id == cid && r.timestamp == t

/-- Body of `save_message`: `Messages.create(question=.., answer=.., chat_id=.., timestamp=now)`.
Raises on a storage failure or on a violation of the unique composite
index; on success appends exactly one row with the next AutoField id. -/
def save_message_body (s : Store) (question answer chat_id : String) (t : Nat)
    (storageErr : Option String) : Except String Store :=
  match storageErr with
  | some e => .error e
  | none =>
    if violatesUnique s.rows chat_id t then
      .error "UNIQUE constraint failed: messages.chat_id, messages.timestamp"
    else
      .ok { rows := s.rows ++ [{ id := s.nextId, question := question, answer := answer,
                                 timestamp := t, chat_id := chat_id }],
            nextId := s.nextId + 1 }

/-- `save_message(question, answer, chat_id)`: returns `true` on success,
catches any exception and returns `false` leaving the table unchanged. -/
def save_message (s : Store) (question answer chat_id : String) (t : Nat)
    (storageErr : Option String) : Bool × Store :=
  match save_message_body s question answer chat_id t storageErr with
  | .ok s2 => (true, s2)
  | .error _ => (false, s)

/-- Python truthiness of the `chat_id` argument in `if chat_id:`:
`None` and the empty string are falsy, every other string is truthy. -/
def truthy : Option String → Bool
  | none => false
  | some c => !(c == "")

/-- Body of `get_chat_history`: select, order by `timestamp` descending,
filter by `chat_id` only when the argument is truthy, limit. -/
def get_chat_history_body (s : Store) (chat_id : Option String) (limit : Nat)
    (storageErr : Option String) : Except String (List Row) :=
  match storageErr with
  | some e => .error e
  | none =>
    let filtered :=
      if truthy chat_id then s.rows.filter (fun r => some r.chat_id == chat_id) else s.rows
    .ok ((sortDesc (fun r => r.timestamp) filtered).take limit)

/-- `get_chat_history(chat_id=None, limit=50)`: catches any exception and
returns the empty list. -/
def get_chat_history (s : Store) (chat_id : Option String) (limit : Nat)
    (storageErr : Option String) : List Row :=
  match get_chat_history_body s chat_id limit storageErr with
  | .ok l => l
  | .error _ => []

/-- Body of `delete_chat`: `DELETE FROM messages WHERE chat_id = ?`,
returning whether the number of deleted rows is positive, together with
the new table state. -/
def delete_chat_body (s : Store) (chat_id : String)
    (storageErr : Option String) : Except String (Bool × Store) :=
  match storageErr with
  | some e => .error e
  | none =>
    .ok (decide (0 < s.rows.countP (fun r => r.chat_id == chat_id)),
         { s with rows := s.rows.filter (fun r => !(r.chat_id == chat_id)) })

/-- `delete_chat(chat_id)`: catches any exception and returns `false`
leaving the table unchanged. -/
def delete_chat (s : Store) (chat_id : String)
    (storageErr : Option String) : Bool × Store :=
  match delete_chat_body s chat_id storageErr with
  | .ok bs => bs
  | .error _ => (false, s)

/-- One row of the `get_chat_folders` result: `chat_id`, a projected
`question`, and `MAX(timestamp) AS last_message`. -/
structure Folder where
  chat_id : String
  question : String
  last_message : Nat
deriving Repr, DecidableEq

/-- Maximum of a list of naturals (0 for the empty list). -/
def natMax : List Nat → Nat
  | [] => 0
  | x :: xs => if natMax xs ≤ x then x else natMax xs

/-- The rows of one conversation, in table order. -/
def groupRows (rows : List Row) (cid : String) : List Row :=
  rows.filter fun r => r.chat_id == cid

/-- `MAX(timestamp)` over one conversation. -/
def lastMessage (rows : List Row) (cid : String) : Nat :=
  natMax ((groupRows rows cid).map fun r => r.timestamp)

/-- The bare `question` column projected by the GROUP BY query.  SQLite
takes bare columns from a row attaining the max of the single `MAX()`
aggregate; we take the first such row in table order. -/
def folderQuestion (rows : List Row) (cid : String) : String :=
  match (groupRows rows cid).find? (fun r => r.timestamp == lastMessage rows cid) with
  | some r => r.question
  | none => ""

/-- The summary entry of one conversation. -/
def mkFolder (rows : List Row) (cid : String) : Folder :=
  { chat_id := cid, question := folderQuestion rows cid,
    last_message := lastMessage rows cid }

/-- Body of `get_chat_folders`: group by `chat_id`, project `question`
and `MAX(timestamp) AS last_message`, order by `last_message`
descending.  (The unused `subquery` local of the Python function builds
no part of the result and is not modelled.) -/
def get_chat_folders_body (s : Store)
    (storageErr : Option String) : Except String (List Folder) :=
  match storageErr with
  | some e => .error e
  | none =>
    .ok (sortDesc (fun f => f.last_message)
          (((s.rows.map fun r => r.chat_id).dedup).map (mkFolder s.rows)))

/-- `get_chat_folders()`: catches any exception and returns the empty list. -/
def get_chat_folders (s : Store) (storageErr : Option String) : List Folder :=
  match get_chat_folders_body s storageErr with
  | .ok l => l
  | .error _ => []

/-- Does `hay` start with `needle`? -/
def startsWithChars : List Char → List Char → Bool
  | _, [] => true
  | [], _ :: _ => false
  | h :: hs, n :: ns => h == n && startsWithChars hs ns

/-- Contiguous-substring test on character lists. -/
def hasSubChars (needle : List Char) : List Char → Bool
  | [] => needle.isEmpty
  | c :: cs => startsWithChars (c :: cs) needle || hasSubChars needle cs

/-- ASCII lower-casing, the case folding SQLite applies in `LIKE`. -/
def lowerAscii (l : List Char) : List Char := l.map Char.toLower

/-- All suffixes of a character list, longest first, ending with `[]`. -/
def tailsList : List Char → List (List Char)
  | [] => [[]]
  | c :: cs => (c :: cs) :: tailsList cs

/-- SQLite `LIKE` pattern matching on (case-folded) character lists:
`%` in the pattern matches any sequence of characters, `_` matches
exactly one character, and any other pattern character matches itself.
The whole string must be consumed. -/
def likeMatch : List Char → List Char → Bool
  | [], s => s.isEmpty
  | p :: ps, s =>
    if p == '%' then (tailsList s).any (fun t => likeMatch ps t)
    else
      match s with
      | [] => false
      | c :: cs => (p == '_' || p == c) && likeMatch ps cs

/-- The match performed by peewee `.contains(query)` on SQLite: the
pattern `'%' + query + '%'` (peewee does not escape `query`) is matched
by SQLite `LIKE`, which folds ASCII case; a `%` or `_` occurring inside
`query` therefore acts as a wildcard. -/
def likeContains (hay pat : String) : Bool :=
  likeMatch (lowerAscii ('%' :: (pat.data ++ ['%']))) (lowerAscii hay.data)

/-- Case-insensitive (ASCII) literal substring containment: the match
relation of the amended SearchMessages claim, which coincides with
`likeContains` exactly when the query is free of the LIKE wildcard
characters `%` and `_`. -/
def containsCI (hay needle : String) : Bool :=
  hasSubChars (lowerAscii needle.data) (lowerAscii hay.data)

/-- The WHERE clause of `search_messages`:
`question.contains(query) | answer.contains(query)`. -/
def matchesQuery (q : String) (r : Row) : Bool :=
  likeContains r.question q || likeContains r.answer q

/-- The amended-claim match relation on rows: the question or the
answer contains the query as a case-insensitive literal substring. -/
def matchesQueryCI (q : String) (r : Row) : Bool :=
  containsCI r.question q || containsCI r.answer q

/-- Body of `search_messages`: filter by the containment test on
`question` or `answer`, order by `timestamp` descending, limit. -/
def search_messages_body (s : Store) (q : String) (limit : Nat)
    (storageErr : Option String) : Except String (List Row) :=
  match storageErr with
  | some e => .error e
  | none =>
    .ok ((sortDesc (fun r => r.timestamp) (s.rows.filter (matchesQuery q))).take limit)

/-- `search_messages(query, limit=10)`: catches any exception and
returns the empty list. -/
def search_messages (s : Store) (q : String) (limit : Nat)
    (storageErr : Option String) : List Row :=
  match search_messages_body s q limit storageErr with
  | .ok l => l
  | .error _ => []

/-- Modelled from the spec: case-sensitive substring containment, the
match relation that the specification text of `SearchMessages` claims
("contains `query` as a case-sensitive substring").  Used only to compare
the specified behaviour with the one implemented by `search_messages`. -/
def specContainsCS (hay needle : String) : Bool :=
  hasSubChars needle.data hay.data

/-- The uniqueness invariant declared by the composite index: no two
rows share both `chat_id` and `timestamp`. -/
def UniquePairs (rows : List Row) : Prop :=
  rows.Pairwise fun r1 r2 => ¬(r1.chat_id = r2.chat_id ∧ r1.timestamp = r2.timestamp)

instance : DecidablePred UniquePairs := fun rows =>
  inferInstanceAs (Decidable (rows.Pairwise _))

/-- The store states reachable through the five operations starting from
the initialized database.  Only `save_message` and `delete_chat` change
the state; the three query operations leave it untouched. -/
inductive Reachable : Store → Prop where
  | init : Reachable emptyStore
  | save (q a c : String) (t : Nat) (err : Option String) {s : Store} :
      Reachable s → Reachable (save_message s q a c t err).2
  | delete (c : String) (err : Option String) {s : Store} :
      Reachable s → Reachable (delete_chat s c err).2

/-! ### Concrete stores used as test inputs

Each of the following states is built only through the store operations,
starting from the initialized database. -/

/-- One saved exchange in conversation `c1`. -/
def roundtripStore : Store :=
  (save_message emptyStore "What is AI?" "AI is..." "c1" 1 none).2

/-- Two messages of conversation `""` at times 10 and 20, plus one
message of conversation `x` also at time 20. -/
def tieStore : Store :=
  (save_message
    (save_message
      (save_message emptyStore "q1" "a1" "" 10 none).2
      "q2" "a2" "" 20 none).2
    "q3" "a3" "x" 20 none).2

/-- A single message in conversation `a`. -/
def delStore : Store :=
  (save_message emptyStore "q" "a1" "a" 1 none).2

/-- One message in conversation `""` and one in conversation `b`. -/
def scopeStore : Store :=
  (save_message
    (save_message emptyStore "q1" "a1" "" 1 none).2
    "q2" "a2" "b" 2 none).2

/-- A single message whose question is `Hello` and answer is `World`. -/
def searchStore : Store :=
  (save_message emptyStore "Hello" "World" "c" 1 none).2

/-- A single message in conversation `c` at time 5. -/
def uniqueStore : Store :=
  (save_message emptyStore "q" "a" "c" 5 none).2

/-- Two messages in conversation `c2` at times 1 and 2, one message in
conversation `d2` at time 3. -/
def twoChatStore : Store :=
  (save_message
    (save_message
      (save_message emptyStore "q1" "a1" "c2" 1 none).2
      "q2" "a2" "c2" 2 none).2
    "q3" "a3" "d2" 3 none).2

/-! ### Lemmas about the descending sort -/

theorem insertDesc_perm (key : α → Nat) (x : α) (l : List α) :
    List.Perm (insertDesc key x l) (x :: l) := by
  induction l with
  | nil => simp [insertDesc]
  | cons y ys ih =>
    simp only [insertDesc]
    split
    · exact List.Perm.refl _
    · exact List.Perm.trans (List.Perm.cons y ih) (List.Perm.swap x y ys)

theorem sortDesc_perm (key : α → Nat) (l : List α) :
    List.Perm (sortDesc key l) l := by
  induction l with
  | nil => exact List.Perm.refl _
  | cons x xs ih =>
    exact List.Perm.trans (insertDesc_perm key x (sortDesc key xs)) (List.Perm.cons x ih)

theorem mem_sortDesc {key : α → Nat} {a : α} {l : List α} :
    a ∈ sortDesc key l ↔ a ∈ l :=
  (sortDesc_perm key l).mem_iff

theorem insertDesc_pairwise {key : α → Nat} {x : α} {l : List α}
    (h : l.Pairwise fun a b => key b ≤ key a) :
    (insertDesc key x l).Pairwise fun a b => key b ≤ key a := by
  induction l with
  | nil => simp [insertDesc]
  | cons y ys ih =>
    rw [List.pairwise_cons] at h
    simp only [insertDesc]
    split
    · rename_i hyx
      refine List.pairwise_cons.mpr ⟨?_, List.pairwise_cons.mpr h⟩
      intro b hb
      rcases List.mem_cons.mp hb with hb | hb
      · exact hb ▸ hyx
      · exact Nat.le_trans (h.1 b hb) hyx
    · rename_i hyx
      refine List.pairwise_cons.mpr ⟨?_, ih h.2⟩
      intro b hb
      rcases List.mem_cons.mp (((insertDesc_perm key x ys).mem_iff).mp hb) with hb | hb
      · exact hb ▸ Nat.le_of_lt (Nat.lt_of_not_le hyx)
      · exact h.1 b hb

theorem sortDesc_pairwise (key : α → Nat) (l : List α) :
    (sortDesc key l).Pairwise fun a b => key b ≤ key a := by
  induction l with
  | nil => exact List.Pairwise.nil
  | cons x xs ih => exact insertDesc_pairwise ih

theorem natMax_mem : ∀ {l : List Nat}, l ≠ [] → natMax l ∈ l
  | [], h => absurd rfl h
  | [x], _ => by simp [natMax]
  | x :: y :: ys, _ => by
    show (if natMax (y :: ys) ≤ x then x else natMax (y :: ys)) ∈ x :: y :: ys
    split
    · exact List.mem_cons_self x _
    · exact List.mem_cons_of_mem x (natMax_mem (by simp))

theorem le_natMax {x : Nat} : ∀ {l : List Nat}, x ∈ l → x ≤ natMax l
  | [], h => absurd h (List.not_mem_nil x)
  | y :: ys, h => by
    show x ≤ if natMax ys ≤ y then y else natMax ys
    rcases List.mem_cons.mp h with h | h
    · subst h
      split
      · exact Nat.le_refl x
      · exact Nat.le_of_lt (Nat.lt_of_not_le (by assumption))
    · have hx : x ≤ natMax ys := le_natMax h
      split
      · exact Nat.le_trans hx (by assumption)
      · exact hx

/-! ### Unfolding helpers for the operations without storage failure -/

theorem get_chat_history_none_eq (s : Store) (chat_id : Option String) (limit : Nat) :
    get_chat_history s chat_id limit none =
      (sortDesc (fun r => r.timestamp)
        (if truthy chat_id then s.rows.filter (fun r => some r.chat_id == chat_id)
         else s.rows)).take limit := rfl

theorem truthy_some_of_ne {A : String} (hA : A ≠ "") : truthy (some A) = true := by
  simp [truthy, hA]

theorem filter_some_beq (rows : List Row) (c : String) :
    (rows.filter fun r => some r.chat_id == some c) = rows.filter fun r => r.chat_id == c := by
  apply List.filter_congr
  intro r _
  rfl

theorem save_message_none_of_violate {s : Store} {q a c : String} {t : Nat}
    (hv : violatesUnique s.rows c t = true) :
    save_message s q a c t none = (false, s) := by
  simp [save_message, save_message_body, hv]

theorem save_message_none_of_ok {s : Store} {q a c : String} {t : Nat}
    (hv : violatesUnique s.rows c t = false) :
    save_message s q a c t none =
      (true, { rows := s.rows ++ [{ id := s.nextId, question := q, answer := a,
                                    timestamp := t, chat_id := c }],
               nextId := s.nextId + 1 }) := by
  simp [save_message, save_message_body, hv]

theorem delete_chat_none_eq (s : Store) (c : String) :
    delete_chat s c none =
      (decide (0 < s.rows.countP fun r => r.chat_id == c),
       { s with rows := s.rows.filter fun r => !(r.chat_id == c) }) := rfl

/-! ### Claim theorems -/

/-- C5: on an underlying storage failure, none of the five operations
propagates the exception; each returns its documented failure value
(`false` and an unchanged store for `save_message` and `delete_chat`,
the empty list for the three queries). -/
theorem operations_degrade_on_failure (s : Store) (q a c qry : String)
    (co : Option String) (t limit klim : Nat) (e : String) :
    save_message s q a c t (some e) = (false, s) ∧
    get_chat_history s co limit (some e) = [] ∧
    delete_chat s c (some e) = (false, s) ∧
    get_chat_folders s (some e) = [] ∧
    search_messages s qry klim (some e) = [] :=
  ⟨rfl, rfl, rfl, rfl, rfl⟩

/-- C8: one call to `save_message` appends exactly one new row when it
returns `true` and leaves the table exactly as it was when it returns
`false`; the existing rows are never modified. -/
theorem save_message_row_delta (s : Store) (q a c : String) (t : Nat)
    (err : Option String) :
    (save_message s q a c t err).2.rows
      = s.rows ++ (if (save_message s q a c t err).1 then
          [{ id := s.nextId, question := q, answer := a, timestamp := t, chat_id := c }]
        else []) := by
  cases err with
  | some e => simp [save_message, save_message_body]
  | none =>
    cases hv : violatesUnique s.rows c t with
    | true => rw [save_message_none_of_violate hv]; simp
    | false => rw [save_message_none_of_ok hv]; simp

/-- C10: calling `get_chat_history` with the empty string as `chat_id`
applies no conversation filter (the empty string is falsy in
`if chat_id:`, exactly like an absent `chat_id`), so messages of every
conversation are returned, not only those whose `chat_id` is `""`. -/
theorem get_chat_history_empty_string_unfiltered (s : Store) (limit : Nat)
    (hlim : s.rows.length ≤ limit) :
    get_chat_history s (some "") limit none = get_chat_history s none limit none ∧
    ∀ r ∈ s.rows, r ∈ get_chat_history s (some "") limit none := by
  have heq : get_chat_history s (some "") limit none
      = (sortDesc (fun r => r.timestamp) s.rows).take limit := rfl
  refine ⟨rfl, ?_⟩
  intro r hr
  rw [heq, List.take_of_length_le (by rw [(sortDesc_perm _ s.rows).length_eq]; exact hlim)]
  exact mem_sortDesc.mpr hr

/-- C10 witness: on a store holding messages of conversations `c2` and
`d2`, `get_chat_history` called with `chat_id = ""` returns the messages
of both conversations. -/
theorem get_chat_history_empty_string_unfiltered_witness :
    twoChatStore.rows.length ≤ 50 ∧
    (get_chat_history twoChatStore (some "") 50 none
        = get_chat_history twoChatStore none 50 none ∧
     ∀ r ∈ twoChatStore.rows, r ∈ get_chat_history twoChatStore (some "") 50 none) :=
  ⟨by decide, get_chat_history_empty_string_unfiltered twoChatStore 50 (by decide)⟩

/-- C7 counterexample: the claim fails when the first conversation id is
the empty string: `""` and `b` are distinct chat ids, each with a saved
message, yet `get_chat_history` for `""` contains the message of
conversation `b`, because the empty string disables the filter. -/
theorem get_chat_history_scope_cex :
    ("" : String) ≠ "b" ∧
    ({ id := 1, question := "q1", answer := "a1", timestamp := 1, chat_id := "" } : Row)
      ∈ scopeStore.rows ∧
    ({ id := 2, question := "q2", answer := "a2", timestamp := 2, chat_id := "b" } : Row)
      ∈ scopeStore.rows ∧
    ({ id := 2, question := "q2", answer := "a2", timestamp := 2, chat_id := "b" } : Row)
      ∈ get_chat_history scopeStore (some "") 50 none := by
  decide

/-- C7 amended: for a non-empty chat id `A`, every message returned by
`get_chat_history(A)` belongs to conversation `A`, so for any other
conversation `B` no message of `B` appears. -/
theorem get_chat_history_scoped (s : Store) (A : String) (limit : Nat)
    (hA : A ≠ "") :
    ∀ r ∈ get_chat_history s (some A) limit none, r.chat_id = A := by
  intro r hr
  rw [get_chat_history_none_eq, truthy_some_of_ne hA, if_pos rfl] at hr
  have h1 := mem_sortDesc.mp (List.mem_of_mem_take hr)
  have h2 := (List.mem_filter.mp h1).2
  simpa using h2

/-- C7 amended witness: on a store holding conversations `c2` and `d2`,
every message returned for `c2` has chat id `c2`. -/
theorem get_chat_history_scoped_witness :
    ("c2" : String) ≠ "" ∧
    ∀ r ∈ get_chat_history twoChatStore (some "c2") 50 none, r.chat_id = "c2" :=
  ⟨by decide, get_chat_history_scoped twoChatStore "c2" 50 (by decide)⟩

theorem pairwise_lt_of_sorted_ne {key : α → Nat} {l : List α}
    (hs : l.Pairwise fun a b => key b ≤ key a)
    (hn : l.Pairwise fun a b => key a ≠ key b) :
    l.Pairwise fun a b => key b < key a := by
  induction l with
  | nil => exact List.Pairwise.nil
  | cons x xs ih =>
    rw [List.pairwise_cons] at hs hn ⊢
    exact ⟨fun b hb => Nat.lt_of_le_of_ne (hs.1 b hb) fun he => hn.1 b hb he.symm,
           ih hs.2 hn.2⟩

/-- C2 counterexample: the claim fails for a conversation whose chat id
is the empty string.  In `tieStore`, conversation `""` has two messages
saved at the distinct times 10 and 20, but `get_chat_history` for `""`
applies no filter and also returns the message of conversation `x`
saved at time 20, so the returned timestamps are 20, 20, 10 - not
strictly descending. -/
theorem get_chat_history_desc_cex :
    (tieStore.rows.filter fun r => r.chat_id == "").Pairwise
      (fun r1 r2 => r1.timestamp ≠ r2.timestamp) ∧
    (tieStore.rows.filter fun r => r.chat_id == "").length = 2 ∧
    (get_chat_history tieStore (some "") 50 none).map (fun r => r.timestamp)
      = [20, 20, 10] ∧
    ¬ (get_chat_history tieStore (some "") 50 none).Pairwise
        (fun r1 r2 => r2.timestamp < r1.timestamp) := by
  decide

/-- C2 amended: for a conversation whose chat id `c` is non-empty and
whose messages carry pairwise distinct timestamps, `get_chat_history(c)`
returns its messages in strictly descending timestamp order.  (For the
empty-string chat id the call returns all conversations, where
timestamps of different conversations may tie.) -/
theorem get_chat_history_strict_desc (s : Store) (c : String) (limit : Nat)
    (hc : c ≠ "")
    (hdist : (s.rows.filter fun r => r.chat_id == c).Pairwise
      fun r1 r2 => r1.timestamp ≠ r2.timestamp) :
    (get_chat_history s (some c) limit none).Pairwise
      fun r1 r2 => r2.timestamp < r1.timestamp := by
  rw [get_chat_history_none_eq, truthy_some_of_ne hc, if_pos rfl, filter_some_beq]
  refine List.Pairwise.sublist (List.take_sublist _ _) ?_
  refine pairwise_lt_of_sorted_ne (sortDesc_pairwise _ _) ?_
  exact (List.Perm.pairwise_iff (fun h => h.symm)
    (sortDesc_perm (fun r => r.timestamp) _)).mpr hdist

/-- C2 amended witness: conversation `c2` of `twoChatStore` has two
messages at distinct times; the history returned for `c2` is strictly
descending. -/
theorem get_chat_history_strict_desc_witness :
    ("c2" : String) ≠ "" ∧
    (twoChatStore.rows.filter fun r => r.chat_id == "c2").Pairwise
      (fun r1 r2 => r1.timestamp ≠ r2.timestamp) ∧
    (get_chat_history twoChatStore (some "c2") 50 none).Pairwise
      (fun r1 r2 => r2.timestamp < r1.timestamp) :=
  ⟨by decide, by decide,
   get_chat_history_strict_desc twoChatStore "c2" 50 (by decide) (by decide)⟩

/-- C3 counterexample: the claim fails when the chat id is the empty
string.  `delStore` holds one message of conversation `a`; deleting
chat `""` removes nothing and returns `false` (correctly), but the
subsequent `get_chat_history("")` is not empty, because the empty
string disables the conversation filter and the message of `a` is
returned. -/
theorem delete_chat_cex :
    (delete_chat delStore "" none).1 = false ∧
    (delete_chat delStore "" none).2 = delStore ∧
    get_chat_history (delete_chat delStore "" none).2 (some "") 50 none ≠ [] := by
  decide

/-- C3 amended: for a non-empty chat id `X`, `delete_chat(X)` removes
exactly the messages of conversation `X`, returns `true` iff at least
one row was removed, a second call returns `false` and changes nothing,
and `get_chat_history(X)` afterwards is empty.  (For `X = ""` the
deletion part still holds, but the final history call returns the
remaining messages of all conversations.) -/
theorem delete_chat_spec (s : Store) (X : String) (limit : Nat) (b : Bool)
    (s2 : Store) (hX : X ≠ "") (hdel : delete_chat s X none = (b, s2)) :
    (∀ r ∈ s2.rows, r.chat_id ≠ X) ∧
    (∀ r ∈ s.rows, r.chat_id ≠ X → r ∈ s2.rows) ∧
    (b = true ↔ ∃ r ∈ s.rows, r.chat_id = X) ∧
    delete_chat s2 X none = (false, s2) ∧
    get_chat_history s2 (some X) limit none = [] := by
  rw [delete_chat_none_eq] at hdel
  have hb : b = decide (0 < s.rows.countP fun r => r.chat_id == X) :=
    (congrArg Prod.fst hdel).symm
  have hs2 : s2 = { s with rows := s.rows.filter fun r => !(r.chat_id == X) } :=
    (congrArg Prod.snd hdel).symm
  have hrows : s2.rows = s.rows.filter fun r => !(r.chat_id == X) := by rw [hs2]
  have hmem : ∀ r ∈ s2.rows, r.chat_id ≠ X := by
    intro r hr
    rw [hrows] at hr
    simpa using (List.mem_filter.mp hr).2
  refine ⟨hmem, ?_, ?_, ?_, ?_⟩
  · intro r hr hne
    rw [hrows]
    exact List.mem_filter.mpr ⟨hr, by simpa using hne⟩
  · rw [hb]
    simp [List.countP_pos_iff]
  · rw [delete_chat_none_eq]
    have hz : (s2.rows.countP fun r => r.chat_id == X) = 0 :=
      List.countP_eq_zero.mpr (fun r hr => by simpa using hmem r hr)
    have hf : (s2.rows.filter fun r => !(r.chat_id == X)) = s2.rows :=
      List.filter_eq_self.mpr (fun r hr => by simpa using hmem r hr)
    rw [hz, hf]
    rfl
  · rw [get_chat_history_none_eq, truthy_some_of_ne hX, if_pos rfl, filter_some_beq]
    have hf : (s2.rows.filter fun r => r.chat_id == X) = [] :=
      List.filter_eq_nil_iff.mpr (fun r hr => by simpa using hmem r hr)
    rw [hf]
    simp [sortDesc]

/-- C3 amended witness: deleting conversation `c2` from `twoChatStore`
removes both of its messages, returns `true`, is idempotent, and leaves
an empty history for `c2`. -/
theorem delete_chat_spec_witness :
    ("c2" : String) ≠ "" ∧
    delete_chat twoChatStore "c2" none
      = (true, (delete_chat twoChatStore "c2" none).2) ∧
    ((∀ r ∈ (delete_chat twoChatStore "c2" none).2.rows, r.chat_id ≠ "c2") ∧
     (∀ r ∈ twoChatStore.rows, r.chat_id ≠ "c2"
        → r ∈ (delete_chat twoChatStore "c2" none).2.rows) ∧
     (true = true ↔ ∃ r ∈ twoChatStore.rows, r.chat_id = "c2") ∧
     delete_chat (delete_chat twoChatStore "c2" none).2 "c2" none
        = (false, (delete_chat twoChatStore "c2" none).2) ∧
     get_chat_history (delete_chat twoChatStore "c2" none).2 (some "c2") 50 none = []) :=
  ⟨by decide, by decide,
   delete_chat_spec twoChatStore "c2" 50 true (delete_chat twoChatStore "c2" none).2
     (by decide) (by decide)⟩

theorem mem_take_sortDesc_of_strict_max {key : α → Nat} {l : List α} {x : α}
    {k : Nat} (hk : 0 < k) (hx : x ∈ l)
    (hmax : ∀ y ∈ l, y ≠ x → key y < key x) :
    x ∈ (sortDesc key l).take k := by
  rcases hLs : sortDesc key l with _ | ⟨h, rest⟩
  · have : x ∈ sortDesc key l := mem_sortDesc.mpr hx
    rw [hLs] at this
    exact absurd this (List.not_mem_nil x)
  · have hxL : x ∈ h :: rest := by rw [← hLs]; exact mem_sortDesc.mpr hx
    by_cases hhx : h = x
    · subst hhx
      cases k with
      | zero => exact absurd hk (by simp)
      | succ n => rw [List.take_succ_cons]; exact List.mem_cons_self _ _
    · exfalso
      have hhl : h ∈ l := mem_sortDesc.mp (by rw [hLs]; exact List.mem_cons_self h rest)
      have hlt : key h < key x := hmax h hhl hhx
      rcases List.mem_cons.mp hxL with he | hxr
      · exact hhx he.symm
      · have hp := sortDesc_pairwise key l
        rw [hLs, List.pairwise_cons] at hp
        exact Nat.lt_irrefl _ (Nat.lt_of_le_of_lt (hp.1 x hxr) hlt)

/-- C1: when `save_message(question, answer, chat_id)` succeeds with a
fresh timestamp, `get_chat_history(chat_id)` (default limit 50) contains
a message carrying exactly that question, answer, and chat id. -/
theorem save_then_history_roundtrip (s : Store) (q a c : String) (t : Nat)
    (s2 : Store)
    (hsave : save_message s q a c t none = (true, s2))
    (hfresh : ∀ r ∈ s.rows, r.timestamp < t) :
    ∃ m ∈ get_chat_history s2 (some c) 50 none,
      m.question = q ∧ m.answer = a ∧ m.chat_id = c := by
  have hv : violatesUnique s.rows c t = false := by
    cases hveq : violatesUnique s.rows c t with
    | false => rfl
    | true =>
      rw [save_message_none_of_violate hveq] at hsave
      exact absurd (congrArg Prod.fst hsave) (by simp)
  rw [save_message_none_of_ok hv] at hsave
  set newRow : Row :=
    { id := s.nextId, question := q, answer := a, timestamp := t, chat_id := c }
    with hnew
  have hs2 : ({ rows := s.rows ++ [newRow], nextId := s.nextId + 1 } : Store) = s2 :=
    congrArg Prod.snd hsave
  have hrows : s2.rows = s.rows ++ [newRow] := by
    rw [← hs2]
  have hmem2 : newRow ∈ s2.rows := by
    rw [hrows]
    exact List.mem_append.mpr (Or.inr (List.mem_cons_self _ _))
  have hmax2 : ∀ y ∈ s2.rows, y ≠ newRow → y.timestamp < t := by
    intro y hy hne
    rw [hrows] at hy
    rcases List.mem_append.mp hy with h1 | h1
    · exact hfresh y h1
    · exact absurd (List.mem_singleton.mp h1) hne
  refine ⟨newRow, ?_, rfl, rfl, rfl⟩
  rw [get_chat_history_none_eq]
  by_cases hc : c = ""
  · have ht : truthy (some c) = false := by simp [truthy, hc]
    rw [ht, if_neg (by simp)]
    exact mem_take_sortDesc_of_strict_max (by omega) hmem2 hmax2
  · rw [truthy_some_of_ne hc, if_pos rfl]
    refine mem_take_sortDesc_of_strict_max (by omega) ?_ ?_
    · exact List.mem_filter.mpr ⟨hmem2, by simp⟩
    · intro y hy hne
      exact hmax2 y (List.mem_filter.mp hy).1 hne

/-- C1 witness: saving the exchange of the specification scenario in
conversation `c1` and reading the history of `c1` back returns it. -/
theorem save_then_history_roundtrip_witness :
    save_message emptyStore "What is AI?" "AI is..." "c1" 1 none
      = (true, roundtripStore) ∧
    ∃ m ∈ get_chat_history roundtripStore (some "c1") 50 none,
      m.question = "What is AI?" ∧ m.answer = "AI is..." ∧ m.chat_id = "c1" :=
  ⟨by decide,
   save_then_history_roundtrip emptyStore "What is AI?" "AI is..." "c1" 1
     roundtripStore (by decide) (by decide)⟩

/-- C4: `get_chat_folders` returns exactly one entry per conversation
that has stored messages; the `last_message` of an entry is attained by
a message of that conversation and bounds every timestamp of the
conversation from above (it is the maximum); and the entries are
ordered by `last_message` descending. -/
theorem get_chat_folders_spec (s : Store) :
    ((get_chat_folders s none).map (fun f => f.chat_id)).Nodup ∧
    (∀ c : String, (∃ f ∈ get_chat_folders s none, f.chat_id = c)
        ↔ ∃ r ∈ s.rows, r.chat_id = c) ∧
    (∀ f ∈ get_chat_folders s none,
       (∃ r ∈ s.rows, r.chat_id = f.chat_id ∧ r.timestamp = f.last_message) ∧
       ∀ r ∈ s.rows, r.chat_id = f.chat_id → r.timestamp ≤ f.last_message) ∧
    (get_chat_folders s none).Pairwise
      (fun f g => g.last_message ≤ f.last_message) := by
  have heq : get_chat_folders s none
      = sortDesc (fun f => f.last_message)
          (((s.rows.map fun r => r.chat_id).dedup).map (mkFolder s.rows)) := rfl
  set ids := (s.rows.map fun r => r.chat_id).dedup with hids
  have hperm := sortDesc_perm (fun f => f.last_message) (ids.map (mkFolder s.rows))
  have hmapeq : (ids.map (mkFolder s.rows)).map (fun f => f.chat_id) = ids := by
    rw [List.map_map]
    have hcomp : ((fun f : Folder => f.chat_id) ∘ mkFolder s.rows) = fun c => c := by
      funext c
      rfl
    rw [hcomp]
    exact List.map_id' ids
  refine ⟨?_, ?_, ?_, ?_⟩
  · rw [heq]
    exact ((hperm.map (fun f => f.chat_id)).nodup_iff).mpr
      (by rw [hmapeq]; exact List.nodup_dedup _)
  · intro c
    rw [heq]
    constructor
    · rintro ⟨f, hf, hfc⟩
      rcases List.mem_map.mp ((hperm.mem_iff).mp hf) with ⟨c2, hc2, hfk⟩
      rcases List.mem_map.mp (List.mem_dedup.mp hc2) with ⟨r, hr, hrc⟩
      have hcc : c2 = c := by rw [← hfc, ← hfk]; exact rfl
      exact ⟨r, hr, hrc.trans hcc⟩
    · rintro ⟨r, hr, hrc⟩
      refine ⟨mkFolder s.rows c, ?_, rfl⟩
      exact (hperm.mem_iff).mpr
        (List.mem_map.mpr ⟨c, List.mem_dedup.mpr (List.mem_map.mpr ⟨r, hr, hrc⟩), rfl⟩)
  · intro f hf
    rw [heq] at hf
    rcases List.mem_map.mp ((hperm.mem_iff).mp hf) with ⟨c2, hc2, hfk⟩
    subst hfk
    rcases List.mem_map.mp (List.mem_dedup.mp hc2) with ⟨r0, hr0, hr0c⟩
    have hg0 : r0 ∈ groupRows s.rows c2 := List.mem_filter.mpr ⟨hr0, by simp [hr0c]⟩
    have hne : ((groupRows s.rows c2).map fun r => r.timestamp) ≠ [] := by
      intro hnil
      rw [List.map_eq_nil_iff] at hnil
      rw [hnil] at hg0
      exact List.not_mem_nil r0 hg0
    rcases List.mem_map.mp (natMax_mem hne) with ⟨rm, hrm, hrmt⟩
    constructor
    · refine ⟨rm, (List.mem_filter.mp hrm).1, ?_, hrmt⟩
      simpa [mkFolder] using (List.mem_filter.mp hrm).2
    · intro r hr hrc
      have hrg : r ∈ groupRows s.rows c2 :=
        List.mem_filter.mpr ⟨hr, by simp [mkFolder] at hrc; simp [hrc]⟩
      exact le_natMax (List.mem_map.mpr ⟨r, hrg, rfl⟩)
  · rw [heq]
    exact sortDesc_pairwise _ _

/-! ### The LIKE match coincides with case-insensitive substring
containment on wildcard-free queries -/

theorem toLower_wildcard_free {c : Char} (h1 : c ≠ '%') (h2 : c ≠ '_') :
    Char.toLower c ≠ '%' ∧ Char.toLower c ≠ '_' := by
  have hlow : Char.toLower c
      = (if c.toNat ≥ 65 ∧ c.toNat ≤ 90 then Char.ofNat (c.toNat + 32) else c) := rfl
  rw [hlow]
  by_cases hcond : c.toNat ≥ 65 ∧ c.toNat ≤ 90
  · rw [if_pos hcond]
    have hval : (Char.ofNat (c.toNat + 32)).toNat = c.toNat + 32 := by
      unfold Char.ofNat
      split
      · rfl
      · rename_i hbad
        exact absurd (Or.inl (by omega)) hbad
    constructor
    · intro he
      have hn := congrArg Char.toNat he
      rw [hval] at hn
      have h37 : ('%' : Char).toNat = 37 := by decide
      rw [h37] at hn
      omega
    · intro he
      have hn := congrArg Char.toNat he
      rw [hval] at hn
      have h95 : ('_' : Char).toNat = 95 := by decide
      rw [h95] at hn
      omega
  · rw [if_neg hcond]
    exact ⟨h1, h2⟩

theorem tailsList_any_isEmpty (s : List Char) :
    (tailsList s).any (fun t => t.isEmpty) = true := by
  induction s with
  | nil => rfl
  | cons c cs ih =>
    rw [show tailsList (c :: cs) = (c :: cs) :: tailsList cs from rfl,
        List.any_cons, ih]
    simp

theorem likeMatch_pct (ps s : List Char) :
    likeMatch ('%' :: ps) s = (tailsList s).any (fun t => likeMatch ps t) := by
  simp [likeMatch]

theorem likeMatch_lit_pct : ∀ (lit s : List Char),
    (∀ c ∈ lit, c ≠ '%' ∧ c ≠ '_') →
    likeMatch (lit ++ ['%']) s = startsWithChars s lit := by
  intro lit
  induction lit with
  | nil =>
    intro s hw
    have hsw : startsWithChars s [] = true := by cases s <;> rfl
    rw [List.nil_append, hsw, likeMatch_pct]
    exact tailsList_any_isEmpty s
  | cons p lit ih =>
    intro s hw
    have hp := hw p (List.mem_cons_self _ _)
    have hplit : ∀ c ∈ lit, c ≠ '%' ∧ c ≠ '_' :=
      fun c hc => hw c (List.mem_cons_of_mem _ hc)
    have hpct : (p == '%') = false := by simp [hp.1]
    have hund : (p == '_') = false := by simp [hp.2]
    cases s with
    | nil =>
      show likeMatch (p :: (lit ++ ['%'])) [] = false
      simp [likeMatch, hpct]
    | cons c cs =>
      show likeMatch (p :: (lit ++ ['%'])) (c :: cs)
        = ((c == p) && startsWithChars cs lit)
      rw [show likeMatch (p :: (lit ++ ['%'])) (c :: cs)
            = ((p == '_' || p == c) && likeMatch (lit ++ ['%']) cs) from by
          simp [likeMatch, hpct]]
      rw [hund, Bool.false_or, ih cs hplit]
      have hcomm : (p == c) = (c == p) := by
        by_cases hpc : p = c
        · simp [hpc]
        · simp [hpc, Ne.symm hpc]
      rw [hcomm]

theorem tailsList_any_startsWith (lit : List Char) : ∀ s : List Char,
    (tailsList s).any (fun t => startsWithChars t lit) = hasSubChars lit s := by
  intro s
  induction s with
  | nil => cases lit <;> rfl
  | cons c cs ih =>
    rw [show tailsList (c :: cs) = (c :: cs) :: tailsList cs from rfl,
        List.any_cons, ih]
    rfl

theorem likeContains_wildcard_free (hay pat : String)
    (hw : ∀ c ∈ pat.data, c ≠ '%' ∧ c ≠ '_') :
    likeContains hay pat = containsCI hay pat := by
  unfold likeContains containsCI
  have hpctfix : Char.toLower '%' = '%' := by decide
  have hlow : lowerAscii ('%' :: (pat.data ++ ['%']))
      = '%' :: (lowerAscii pat.data ++ ['%']) := by
    simp [lowerAscii, hpctfix]
  rw [hlow, likeMatch_pct]
  have hw2 : ∀ c ∈ lowerAscii pat.data, c ≠ '%' ∧ c ≠ '_' := by
    intro c hc
    rcases List.mem_map.mp hc with ⟨c0, hc0, rfl⟩
    exact toLower_wildcard_free (hw c0 hc0).1 (hw c0 hc0).2
  have hfun : (fun t => likeMatch (lowerAscii pat.data ++ ['%']) t)
      = fun t => startsWithChars t (lowerAscii pat.data) := by
    funext t
    exact likeMatch_lit_pct _ t hw2
  rw [hfun, tailsList_any_startsWith]

/-- Evidence that the wildcard restriction matters: `_` in the query
acts as a single-character wildcard in the code's LIKE match, so
`W_rld` matches `World` although it is not a literal substring of it,
case folded or not. -/
theorem likeContains_wildcard_behavior :
    likeContains "World" "W_rld" = true ∧
    containsCI "World" "W_rld" = false ∧
    specContainsCS "World" "W_rld" = false := by
  decide

/-- C6 counterexample: the match of `search_messages` is not
case-sensitive.  The store holds one message with question `Hello` and
answer `World`; searching for `hello` returns that message although
neither field contains `hello` as a case-sensitive substring, because
peewee `.contains` compiles to a SQLite `LIKE`, which folds ASCII case. -/
theorem search_messages_case_cex :
    search_messages searchStore "hello" 10 none
      = [{ id := 1, question := "Hello", answer := "World", timestamp := 1,
           chat_id := "c" }] ∧
    specContainsCS "Hello" "hello" = false ∧
    specContainsCS "World" "hello" = false := by
  decide

/-- C6 amended: for a query `q` free of the LIKE wildcard characters
`%` and `_` (which peewee `.contains` passes unescaped into the LIKE
pattern), `search_messages(q, k)` returns exactly the messages whose
question or answer contains `q` as a case-insensitive (ASCII)
substring, newest first, capped at `k`: the result length is `min k`
(number of matches), every returned row is a stored matching row, the
result is ordered by timestamp descending, and when at most `k` rows
match, every matching row is returned. -/
theorem search_messages_ci_spec (s : Store) (q : String) (k : Nat)
    (hw : ∀ c ∈ q.data, c ≠ '%' ∧ c ≠ '_') :
    (search_messages s q k none).length = min k (s.rows.countP (matchesQueryCI q)) ∧
    (∀ r ∈ search_messages s q k none, r ∈ s.rows ∧ matchesQueryCI q r = true) ∧
    (search_messages s q k none).Pairwise
      (fun r1 r2 => r2.timestamp ≤ r1.timestamp) ∧
    (s.rows.countP (matchesQueryCI q) ≤ k →
      ∀ r ∈ s.rows, matchesQueryCI q r = true → r ∈ search_messages s q k none) := by
  have hmq : matchesQuery q = matchesQueryCI q := by
    funext r
    unfold matchesQuery matchesQueryCI
    rw [likeContains_wildcard_free r.question q hw,
        likeContains_wildcard_free r.answer q hw]
  have heq : search_messages s q k none
      = (sortDesc (fun r => r.timestamp) (s.rows.filter (matchesQuery q))).take k := rfl
  rw [hmq] at heq
  have hlen : (sortDesc (fun r => r.timestamp) (s.rows.filter (matchesQueryCI q))).length
      = s.rows.countP (matchesQueryCI q) := by
    rw [(sortDesc_perm _ _).length_eq]
    exact (List.countP_eq_length_filter _ _).symm
  refine ⟨?_, ?_, ?_, ?_⟩
  · rw [heq, List.length_take, hlen]
  · intro r hr
    rw [heq] at hr
    have h1 := mem_sortDesc.mp (List.mem_of_mem_take hr)
    exact ⟨(List.mem_filter.mp h1).1, (List.mem_filter.mp h1).2⟩
  · rw [heq]
    exact List.Pairwise.sublist (List.take_sublist _ _) (sortDesc_pairwise _ _)
  · intro hkc r hr hm
    rw [heq, List.take_of_length_le (by rw [hlen]; exact hkc)]
    exact mem_sortDesc.mpr (List.mem_filter.mpr ⟨hr, hm⟩)

/-- C6 amended witness: the query `hello` is wildcard-free, and the
amended search contract holds on the one-message store. -/
theorem search_messages_ci_spec_witness :
    (∀ c ∈ ("hello" : String).data, c ≠ '%' ∧ c ≠ '_') ∧
    ((search_messages searchStore "hello" 10 none).length
        = min 10 (searchStore.rows.countP (matchesQueryCI "hello")) ∧
     (∀ r ∈ search_messages searchStore "hello" 10 none,
        r ∈ searchStore.rows ∧ matchesQueryCI "hello" r = true) ∧
     (search_messages searchStore "hello" 10 none).Pairwise
        (fun r1 r2 => r2.timestamp ≤ r1.timestamp) ∧
     (searchStore.rows.countP (matchesQueryCI "hello") ≤ 10 →
       ∀ r ∈ searchStore.rows, matchesQueryCI "hello" r = true
         → r ∈ search_messages searchStore "hello" 10 none)) :=
  ⟨by decide, search_messages_ci_spec searchStore "hello" 10 (by decide)⟩

theorem uniquePairs_save (s : Store) (q a c : String) (t : Nat)
    (err : Option String) (h : UniquePairs s.rows) :
    UniquePairs (save_message s q a c t err).2.rows := by
  cases err with
  | some e => exact h
  | none =>
    cases hv : violatesUnique s.rows c t with
    | true => rw [save_message_none_of_violate hv]; exact h
    | false =>
      rw [save_message_none_of_ok hv]
      show List.Pairwise _ (s.rows ++ [_])
      rw [List.pairwise_append]
      refine ⟨h, List.pairwise_singleton _ _, ?_⟩
      intro r1 hr1 r2 hr2
      rw [List.mem_singleton] at hr2
      subst hr2
      rintro ⟨hc1, ht1⟩
      have hvt : violatesUnique s.rows c t = true := by
        simp only [violatesUnique, List.any_eq_true]
        exact ⟨r1, hr1, by simp [hc1, ht1]⟩
      rw [hvt] at hv
      exact Bool.noConfusion hv

theorem uniquePairs_delete (s : Store) (c : String) (err : Option String)
    (h : UniquePairs s.rows) :
    UniquePairs (delete_chat s c err).2.rows := by
  cases err with
  | some e => exact h
  | none =>
    rw [delete_chat_none_eq]
    exact List.Pairwise.sublist (List.filter_sublist _) h

/-- C9: every store state reachable through the five operations
satisfies the composite-index invariant (no two rows share both
`chat_id` and `timestamp`), and a `save_message` whose write would
collide on `(chat_id, timestamp)` returns `false` with the store - and
hence the invariant - intact, instead of propagating the exception. -/
theorem store_unique_invariant (s : Store) (q a c : String) (t : Nat)
    (hreach : Reachable s) :
    UniquePairs s.rows ∧
    (violatesUnique s.rows c t = true → save_message s q a c t none = (false, s)) := by
  refine ⟨?_, fun hv => save_message_none_of_violate hv⟩
  induction hreach with
  | init => exact List.Pairwise.nil
  | save q2 a2 c2 t2 err hR ih => exact uniquePairs_save _ q2 a2 c2 t2 err ih
  | delete c2 err hR ih => exact uniquePairs_delete _ c2 err ih

/-- C9 witness: after one save in conversation `c` at time 5, saving
again in `c` at time 5 would collide; the invariant holds and the
colliding save returns `false` leaving the store unchanged. -/
theorem store_unique_invariant_witness :
    violatesUnique uniqueStore.rows "c" 5 = true ∧
    (UniquePairs uniqueStore.rows ∧
     (violatesUnique uniqueStore.rows "c" 5 = true →
        save_message uniqueStore "q2" "a2" "c" 5 none = (false, uniqueStore))) :=
  ⟨by decide,
   store_unique_invariant uniqueStore "q2" "a2" "c" 5
     (Reachable.save "q" "a" "c" 5 none Reachable.init)⟩

end ChatDB
